import Mathlib

/-!
Shallow embedding of the graph engine of `src/utils/graph.ts` (the pure
core of the "in-block" application), together with proofs of the
specification's claims about it.

JS conventions modelled explicitly:
* optional string fields (`sourceHandle?`, `targetHandle?`, …) become
  `Option String`;
* JS truthiness tests on such fields (`if (e.sourceHandle)`) are modelled
  by `optTruthy`, which is `false` for `none` and for `some ""`;
* JS numbers are modelled as `Int` (the functions under study only add,
  subtract, compare and take max/min, so no floating-point behaviour is
  involved);
* `uuidv4()` is modelled by an explicit fresh-name supply
  `fresh : Nat → String` threaded through with a counter;
* a JS `Set` that is only queried via `.has` is modelled by a list with
  insert-if-absent, preserving insertion order;
* node fields the graph engine never reads or writes (`executionContext`,
  `parts`) are omitted from the embedded record; all fields it copies,
  reads or replaces are present.
-/

namespace InBlock

/-- 2-D position, `src/types.ts` `Position`. -/
structure Position where
  x : Int
  y : Int
deriving Repr, DecidableEq

/-- A graph node, `src/types.ts` `NodeData`. -/
structure NodeData where
  id : String
  type : String
  source : String
  content : String
  position : Position
  width : Int
  height : Int
  isGenerating : Bool
  ports : List String
  model : Option String
  isInactive : Bool
  collapsed : Bool
  imageId : Option String
  imageMimeType : Option String
deriving Repr, DecidableEq

/-- A directed edge, `src/types.ts` `EdgeData`. -/
structure EdgeData where
  id : String
  source : String
  target : String
  sourceHandle : Option String
  targetHandle : Option String
  color : Option String
deriving Repr, DecidableEq

/-- A visual group, `src/types.ts` `GroupData`. -/
structure GroupData where
  id : String
  title : String
  nodeIds : List String
  color : Option String
deriving Repr, DecidableEq

/-- JS truthiness of an optional string: `undefined` and `""` are falsy. -/
def optTruthy : Option String → Bool
  | none => false
  | some s => s ≠ ""

/-- Insert-if-absent, modelling `Set.add` of a JS `Set` (insertion order kept). -/
def insertUniq (l : List String) (x : String) : List String :=
  if x ∈ l then l else l ++ [x]

/-! ## Port lifecycle: `getCleanedPorts` (graph.ts lines 33–59) -/

/-- Membership test of the `activePorts` set built at graph.ts lines 34–38:
a port is active iff some edge touching the node references it as a
(truthy) `sourceHandle` or `targetHandle`. -/
def isActivePort (node : NodeData) (currentEdges : List EdgeData) (p : String) : Bool :=
  currentEdges.any fun e =>
    (e.source == node.id && optTruthy e.sourceHandle && e.sourceHandle == some p) ||
    (e.target == node.id && optTruthy e.targetHandle && e.targetHandle == some p)

/-- The `while` loop of graph.ts lines 41–57, expressed on the REVERSED
port list (so the JS `pop` of the last element is dropping the head):
while more than one port remains, keep the last port if it is active, or
if the second-to-last is active (it then stays as the single spare),
otherwise drop it and repeat. -/
def dropTrailingInactive (active : String → Bool) : List String → List String
  | [] => []
  | [p] => [p]
  | lastP :: secondLast :: rest =>
    if active lastP then
      lastP :: secondLast :: rest
    else if active secondLast then
      lastP :: secondLast :: rest
    else
      dropTrailingInactive active (secondLast :: rest)

/-- `getCleanedPorts` (graph.ts lines 33–59). -/
def getCleanedPorts (node : NodeData) (currentEdges : List EdgeData) : List String :=
  (dropTrailingInactive (isActivePort node currentEdges) node.ports.reverse).reverse

/-! ## Layered auto-layout: `performLayout` (graph.ts lines 61–149) -/

/-- `levels.get(id) || 0`: the level map is modelled as a total function
initialised to `0` on every id (all target nodes are set to `0` up front,
and a missing key reads back as `0` through `|| 0`). -/
def setLevel (levels : String → Nat) (id : String) (v : Nat) : String → Nat :=
  fun id' => if id' = id then v else levels id'

/-- One pass of the longest-path relaxation loop (graph.ts lines 71–81):
fold over all edges, raising `level(target)` to `level(source) + 1` when
both endpoints are target nodes; the Bool records whether anything changed. -/
def levelPass (targetNodeIds : List String) (targetEdges : List EdgeData)
    (levels : String → Nat) : (String → Nat) × Bool :=
  targetEdges.foldl
    (fun (acc : (String → Nat) × Bool) e =>
      if e.source ∈ targetNodeIds && e.target ∈ targetNodeIds then
        let uLvl := acc.1 e.source
        let vLvl := acc.1 e.target
        if vLvl < uLvl + 1 then (setLevel acc.1 e.target (uLvl + 1), true) else acc
      else acc)
    (levels, false)

/-- The bounded iteration of graph.ts lines 70–83: run passes until a pass
reports no change, or the pass budget (`targetNodes.length + 1`) is spent. -/
def levelIter (targetNodeIds : List String) (targetEdges : List EdgeData) :
    Nat → (String → Nat) → (String → Nat)
  | 0, levels => levels
  | n + 1, levels =>
    let (levels', changed) := levelPass targetNodeIds targetEdges levels
    if changed then levelIter targetNodeIds targetEdges n levels' else levels'

/-- Level assignment of `performLayout` (graph.ts lines 66–83). -/
def assignLevels (targetNodes : List NodeData) (targetEdges : List EdgeData) :
    String → Nat :=
  levelIter (targetNodes.map (·.id)) targetEdges (targetNodes.length + 1) (fun _ => 0)

/-- Stable insertion of `x` after every already-placed element `y` with
`le y x`; `stableSortBy` below is a stable sort, hence agrees with the JS
stable `Array.prototype.sort` for the comparators used here. -/
def insertBy (le : α → α → Bool) (x : α) : List α → List α
  | [] => [x]
  | y :: ys => if le y x then y :: insertBy le x ys else x :: y :: ys

/-- Stable sort (insertion sort), modelling `Array.prototype.sort` with a
consistent comparator (stable per the ECMAScript spec). -/
def stableSortBy (le : α → α → Bool) (l : List α) : List α :=
  l.foldl (fun acc x => insertBy le x acc) []

/-- Effective width of a node in layout (graph.ts line 106 / 122):
`collapsed ? 220 : (width || 300)`; a JS-falsy width of `0` falls back to 300. -/
def layoutWidth (n : NodeData) : Int :=
  if n.collapsed then 220 else if n.width = 0 then 300 else n.width

/-- Effective height of a node in layout (graph.ts lines 107–109 / 135–137):
`collapsed ? max(70, ports.length * 28 + 45) : (height || 150)`. -/
def layoutHeight (n : NodeData) : Int :=
  if n.collapsed then max 70 ((n.ports.length : Int) * 28 + 45)
  else if n.height = 0 then 150 else n.height

/-- First index of `x` in `l` (`Array.prototype.indexOf`, `l.length` when absent). -/
def listIndexOf (l : List String) (x : String) : Nat :=
  match l with
  | [] => 0
  | y :: ys => if y = x then 0 else listIndexOf ys x + 1

/-- The per-level id buckets of graph.ts lines 86–92: target nodes sorted
stably by pre-layout `y`, then bucketed by level. `levelGroup L` is the
bucket for level `L`. -/
def levelGroup (targetNodes : List NodeData) (levels : String → Nat) (lvl : Nat) :
    List String :=
  ((stableSortBy (fun a b => a.position.y ≤ b.position.y) targetNodes).filter
      (fun n => levels n.id = lvl)).map (·.id)

/-- `Math.max(...prevLevelNodes.map(widths), 300)` for one level
(graph.ts lines 114–125); the ids are resolved back to nodes by first match. -/
def maxWidthInLevel (targetNodes : List NodeData) (ids : List String) : Int :=
  ((ids.filterMap (fun id => targetNodes.find? (fun n => n.id == id))).map
      layoutWidth).foldl max 300

/-- Column x-coordinate (graph.ts lines 112–128): origin plus, for every
previous level, that level's max width plus the 80px horizontal gap. -/
def layoutX (targetNodes : List NodeData) (levels : String → Nat) (originX : Int)
    (level : Nat) : Int :=
  (List.range level).foldl
    (fun x i => x + maxWidthInLevel targetNodes (levelGroup targetNodes levels i) + 80)
    originX

/-- Row y-coordinate (graph.ts lines 131–139): origin plus, for every earlier
node in the same level bucket, its effective height plus the 50px vertical gap. -/
def layoutY (targetNodes : List NodeData) (group : List String) (originY : Int)
    (indexInGroup : Nat) : Int :=
  (List.range indexInGroup).foldl
    (fun y j =>
      match (group.get? j).bind
          (fun id => targetNodes.find? (fun n => n.id == id)) with
      | some prev => y + layoutHeight prev + 50
      | none => y + 150 + 50)
    originY

/-- `performLayout` (graph.ts lines 61–149): longest-path leveling followed
by size-aware coordinate assignment; every node is returned with only its
`position` replaced. -/
def performLayout (targetNodes : List NodeData) (targetEdges : List EdgeData)
    (originX : Int := 100) (originY : Int := 100) : List NodeData :=
  if targetNodes.isEmpty then []
  else
    let levels := assignLevels targetNodes targetEdges
    targetNodes.map fun node =>
      let level := levels node.id
      let group := levelGroup targetNodes levels level
      let indexInGroup := listIndexOf group node.id
      { node with
        position :=
          { x := layoutX targetNodes levels originX level
            y := layoutY targetNodes group originY indexInGroup } }

/-! ## Ancestor traversal: `getExecutionSequence` (graph.ts lines 155–187) -/

/-- A stack frame of the traversal: `{ nodeId, inputPortId? }`. -/
structure Frame where
  nodeId : String
  inputPortId : Option String
deriving Repr, DecidableEq

/-- The incoming-edge filter of graph.ts lines 170–174: target must match,
and when `inputPortId` is truthy the `targetHandle` must match it too. -/
def matchesIncoming (nodeId : String) (inputPortId : Option String) (e : EdgeData) : Bool :=
  e.target == nodeId && (!optTruthy inputPortId || e.targetHandle == inputPortId)

/-- The `while (stack.length > 0)` loop of graph.ts lines 165–180. The JS
array is used LIFO (push/pop at the end); it is modelled head-first, so a
batch push of the matching edges' frames prepends them reversed. The JS
loop has no visited-set guard and need not terminate on cyclic graphs, so
the model takes fuel and returns `none` when the fuel is exhausted with a
non-empty stack. -/
def execLoop (edges : List EdgeData) :
    Nat → List Frame → List String → List String → Option (List String × List String)
  | _, [], visited, anc => some (visited, anc)
  | 0, _ :: _, _, _ => none
  | fuel + 1, frame :: rest, visited, anc =>
    let visited' := insertUniq visited frame.nodeId
    let incoming := edges.filter (matchesIncoming frame.nodeId frame.inputPortId)
    let anc' := incoming.foldl (fun a e => insertUniq a e.id) anc
    let stack' := (incoming.map (fun e => Frame.mk e.source e.sourceHandle)).reverse ++ rest
    execLoop edges fuel stack' visited' anc'

/-- Result of `getExecutionSequence`. -/
structure ExecResult where
  sequence : List NodeData
  ancestorEdgeIds : List String
deriving Repr, DecidableEq

/-- `getExecutionSequence` (graph.ts lines 155–187): backward traversal from
the trigger node collecting visited nodes and ancestor edge ids, then the
visited nodes filtered from `nodes` and sorted by ascending `position.x`. -/
def getExecutionSequence (fuel : Nat) (triggerNodeId : String)
    (nodes : List NodeData) (edges : List EdgeData) : Option ExecResult :=
  match execLoop edges fuel [⟨triggerNodeId, none⟩] [] [] with
  | none => none
  | some (visited, anc) =>
    some ⟨stableSortBy (fun a b => a.position.x ≤ b.position.x)
            (nodes.filter (fun n => visited.contains n.id)),
          anc⟩

/-! ## Deletion effects: `calculateDeletionEffects` (graph.ts lines 192–317) -/

/-- Result record of `calculateDeletionEffects`. -/
structure DeletionResult where
  nodes : List NodeData
  edges : List EdgeData
  groups : List GroupData
deriving Repr, DecidableEq

/-- The duplicate-bridge check of graph.ts lines 236–246: an edge with the
same (source, sourceHandle, target, targetHandle) tuple as the candidate
bridge already exists among the bridged or remaining edges. -/
def bridgeExists (bridged remaining : List EdgeData) (inEdge outEdge : EdgeData) : Bool :=
  bridged.any (fun ne =>
    ne.source == inEdge.source && ne.target == outEdge.target &&
    ne.sourceHandle == inEdge.sourceHandle && ne.targetHandle == outEdge.targetHandle) ||
  remaining.any (fun re =>
    re.source == inEdge.source && re.target == outEdge.target &&
    re.sourceHandle == inEdge.sourceHandle && re.targetHandle == outEdge.targetHandle)

/-- One (incoming, outgoing) pair of graph.ts lines 234–259: synthesize the
bridge unless its connection tuple already exists. The accumulator carries
the bridged edges plus the fresh-id counter. -/
def addBridge (fresh : Nat → String) (remaining : List EdgeData)
    (inEdge outEdge : EdgeData) (acc : List EdgeData × Nat) : List EdgeData × Nat :=
  if bridgeExists acc.1 remaining inEdge outEdge then acc
  else
    (acc.1 ++ [{ id := fresh acc.2, source := inEdge.source, target := outEdge.target,
                 sourceHandle := inEdge.sourceHandle, targetHandle := outEdge.targetHandle,
                 color := inEdge.color }],
     acc.2 + 1)

/-- The per-port double loop of graph.ts lines 230–260. -/
def bridgePort (fresh : Nat → String) (remaining : List EdgeData)
    (relevantIncoming relevantOutgoing : List EdgeData) (portId : String)
    (acc : List EdgeData × Nat) : List EdgeData × Nat :=
  let portInEdges := relevantIncoming.filter (fun e => e.targetHandle == some portId)
  let portOutEdges := relevantOutgoing.filter (fun e => e.sourceHandle == some portId)
  portInEdges.foldl
    (fun acc inEdge =>
      portOutEdges.foldl (fun acc outEdge => addBridge fresh remaining inEdge outEdge acc) acc)
    acc

/-- The per-deleted-node loop body of graph.ts lines 223–261. -/
def bridgeDeletedNode (fresh : Nat → String) (nodes : List NodeData)
    (remaining incoming outgoing : List EdgeData)
    (acc : List EdgeData × Nat) (deletedId : String) : List EdgeData × Nat :=
  match nodes.find? (fun n => n.id == deletedId) with
  | none => acc
  | some node =>
    let relevantIncoming := incoming.filter (fun e => e.target == deletedId)
    let relevantOutgoing := outgoing.filter (fun e => e.source == deletedId)
    node.ports.foldl
      (fun acc portId => bridgePort fresh remaining relevantIncoming relevantOutgoing portId acc)
      acc

/-- Replace the first list element satisfying `p` (the JS code mutates the
object returned by `Array.prototype.find`, i.e. the first match). -/
def updateFirst (p : α → Bool) (f : α → α) : List α → List α
  | [] => []
  | x :: xs => if p x then f x :: xs else x :: updateFirst p f xs

/-- State of the subtree-shifting pass: the `movedNodesSet` and the node
array being mutated in place. -/
structure ShiftState where
  moved : List String
  nodes : List NodeData
deriving Repr, DecidableEq

/-- `shiftSubtreeLeft` (graph.ts lines 272–284): shift a node and everything
reachable forward from it, each node at most once. The JS recursion depth is
bounded by the number of nodes plus one (every frame that recurses first
adds the id of a found node to the moved set), so any fuel of at least
`nodes.length + 2` makes this model agree with the JS function. -/
def shiftSubtreeLeft (finalEdges : List EdgeData) (deltaX : Int) :
    Nat → String → ShiftState → ShiftState
  | 0, _, st => st
  | fuel + 1, rootId, st =>
    if st.moved.contains rootId then st
    else
      let st1 : ShiftState := { st with moved := st.moved ++ [rootId] }
      match st1.nodes.find? (fun n => n.id == rootId) with
      | none => st1
      | some _ =>
        let st2 : ShiftState :=
          { st1 with
            nodes := updateFirst (fun n => n.id == rootId)
              (fun n => { n with position := { n.position with x := n.position.x + deltaX } })
              st1.nodes }
        let children := (finalEdges.filter (fun e => e.source == rootId)).map (·.target)
        children.foldl (fun s c => shiftSubtreeLeft finalEdges deltaX fuel c s) st2

/-- The `incomingEdges` array of the partition at graph.ts lines 205–218
(only the target endpoint is deleted). -/
def incomingEdgesOf (edges : List EdgeData) (deletedNodeIds : List String) : List EdgeData :=
  edges.filter (fun e => !deletedNodeIds.contains e.source && deletedNodeIds.contains e.target)

/-- The `outgoingEdges` array of the partition at graph.ts lines 205–218
(only the source endpoint is deleted). -/
def outgoingEdgesOf (edges : List EdgeData) (deletedNodeIds : List String) : List EdgeData :=
  edges.filter (fun e => deletedNodeIds.contains e.source && !deletedNodeIds.contains e.target)

/-- The `remainingEdges` array of the partition at graph.ts lines 205–218
(neither endpoint is deleted). -/
def remainingEdgesOf (edges : List EdgeData) (deletedNodeIds : List String) : List EdgeData :=
  edges.filter (fun e => !deletedNodeIds.contains e.source && !deletedNodeIds.contains e.target)

/-- The `bridgedEdges` array built by the loop at graph.ts lines 221–261. -/
def bridgedEdgesOf (fresh : Nat → String) (nodes : List NodeData)
    (edges : List EdgeData) (deletedNodeIds : List String) : List EdgeData :=
  (deletedNodeIds.foldl
    (bridgeDeletedNode fresh nodes (remainingEdgesOf edges deletedNodeIds)
      (incomingEdgesOf edges deletedNodeIds) (outgoingEdgesOf edges deletedNodeIds))
    ([], 0)).1

/-- The node array after filtering deleted ids, position deep-copy, and the
subtree-shifting pass (graph.ts lines 266–298), before port reconciliation. -/
def shiftedNodesOf (fresh : Nat → String) (nodes : List NodeData)
    (edges : List EdgeData) (deletedNodeIds : List String) : List NodeData :=
  let finalEdges := remainingEdgesOf edges deletedNodeIds ++ bridgedEdgesOf fresh nodes edges deletedNodeIds
  let nextNodes0 :=
    (nodes.filter (fun n => !deletedNodeIds.contains n.id)).map
      (fun n => { n with position := { x := n.position.x, y := n.position.y } })
  ((bridgedEdgesOf fresh nodes edges deletedNodeIds).foldl
    (fun (st : ShiftState) edge =>
      match st.nodes.find? (fun n => n.id == edge.source),
            st.nodes.find? (fun n => n.id == edge.target) with
      | some parent, some child =>
        let currentDist := child.position.x - parent.position.x
        if currentDist > 400 + 50 then
          shiftSubtreeLeft finalEdges (400 - currentDist) (st.nodes.length + 2) child.id st
        else st
      | _, _ => st)
    ⟨[], nextNodes0⟩).nodes

/-- `calculateDeletionEffects` (graph.ts lines 192–317). -/
def calculateDeletionEffects (fresh : Nat → String) (nodes : List NodeData)
    (edges : List EdgeData) (groups : List GroupData)
    (deletedNodeIds : List String) : DeletionResult :=
  let finalEdges := remainingEdgesOf edges deletedNodeIds ++ bridgedEdgesOf fresh nodes edges deletedNodeIds
  let nextNodes :=
    (shiftedNodesOf fresh nodes edges deletedNodeIds).map
      (fun node => { node with ports := getCleanedPorts node finalEdges })
  let nextGroups :=
    (groups.map (fun g =>
      { g with nodeIds := g.nodeIds.filter (fun nid => !deletedNodeIds.contains nid) })).filter
      (fun g => g.nodeIds.length > 0)
  ⟨nextNodes, finalEdges, nextGroups⟩

/-! ## Merge effects: `calculateMergeEffects` (graph.ts lines 322–421) -/

/-- Result record of `calculateMergeEffects` (the non-`null` case). -/
structure MergeResult where
  nodes : List NodeData
  edges : List EdgeData
  groups : List GroupData
  newNode : NodeData
deriving Repr, DecidableEq

/-- ECMAScript WhiteSpace and LineTerminator code points, the set stripped
by `String.prototype.trim`. -/
def jsWhitespace (c : Char) : Bool :=
  c == ' ' || c == '\t' || c == '\n' || c == '\r' ||
  c == '\x0b' || c == '\x0c' || c == '\u00A0' || c == '\uFEFF' ||
  c == '\u1680' || ('\u2000' ≤ c && c ≤ '\u200A') ||
  c == '\u2028' || c == '\u2029' || c == '\u202F' || c == '\u205F' || c == '\u3000'

/-- JS `String.prototype.trim`: strip leading and trailing whitespace. -/
def jsTrim (s : String) : String :=
  String.mk (((s.data.dropWhile jsWhitespace).reverse.dropWhile jsWhitespace).reverse)

/-- JS `x || default` on an optional string (`undefined` and `""` are falsy). -/
def jsOrString (o : Option String) (d : String) : String :=
  match o with
  | some s => if s = "" then d else s
  | none => d

/-- JS template-string interpolation of a possibly-undefined string:
`undefined` prints as `"undefined"`. -/
def optStr (o : Option String) : String :=
  o.getD "undefined"

/-- The per-edge rewrite step of graph.ts lines 364–403; the accumulator is
(new edges, `seenConnections` keys, fresh-id counter). -/
def mergeEdgeStep (fresh : Nat → String) (mergeNodeIds : List String)
    (newNodeId newPortId : String)
    (acc : List EdgeData × List String × Nat) (edge : EdgeData) :
    List EdgeData × List String × Nat :=
  let (newEdges, seen, k) := acc
  let isSourceSelected := mergeNodeIds.contains edge.source
  let isTargetSelected := mergeNodeIds.contains edge.target
  if isSourceSelected && isTargetSelected then acc
  else if isTargetSelected then
    let key := edge.source ++ ":" ++ optStr edge.sourceHandle ++ "-" ++ newNodeId ++ ":" ++ newPortId
    if seen.contains key then acc
    else
      (newEdges ++ [{ id := fresh k, source := edge.source, sourceHandle := edge.sourceHandle,
                      target := newNodeId, targetHandle := some newPortId, color := edge.color }],
       seen ++ [key], k + 1)
  else if isSourceSelected then
    let key := newNodeId ++ ":" ++ newPortId ++ "-" ++ edge.target ++ ":" ++ optStr edge.targetHandle
    if seen.contains key then acc
    else
      (newEdges ++ [{ id := fresh k, source := newNodeId, sourceHandle := some newPortId,
                      target := edge.target, targetHandle := edge.targetHandle, color := edge.color }],
       seen ++ [key], k + 1)
  else (newEdges ++ [edge], seen, k)

/-- `calculateMergeEffects` (graph.ts lines 322–421). `fresh 0` is the new
node's id, `fresh 1` its single port's id, and `fresh k` for `k ≥ 2` the
ids of rewritten edges. -/
def calculateMergeEffects (fresh : Nat → String) (nodes : List NodeData)
    (edges : List EdgeData) (groups : List GroupData)
    (mergeNodeIds : List String) (NODE_WIDTH : Int := 300) : Option MergeResult :=
  let nodesToMerge := mergeNodeIds.filterMap (fun id => nodes.find? (fun n => n.id == id))
  if nodesToMerge.isEmpty then none
  else
    let mergedContent :=
      String.intercalate "\n\n"
        ((nodesToMerge.map (·.content)).filter (fun text => (jsTrim text).length > 0))
    let xs := nodesToMerge.map (·.position.x)
    let ys := nodesToMerge.map (·.position.y)
    let minX := xs.foldl min (xs.headD 0)
    let minY := ys.foldl min (ys.headD 0)
    let newNodeId := fresh 0
    let newPortId := fresh 1
    let firstImageId := nodesToMerge.head?.bind (·.imageId)
    let allSameImage :=
      optTruthy firstImageId && nodesToMerge.all (fun n => n.imageId == firstImageId)
    let newNode : NodeData :=
      { id := newNodeId
        type := "text"
        source := "user"
        content := mergedContent
        imageId := if allSameImage then firstImageId else none
        imageMimeType := if allSameImage then nodesToMerge.head?.bind (·.imageMimeType) else none
        position := { x := minX, y := minY }
        width := NODE_WIDTH
        height := 150
        isGenerating := false
        ports := [newPortId]
        model := some (jsOrString (nodesToMerge.head?.bind (·.model)) "gemini-2.0-flash")
        isInactive := false
        collapsed := false }
    let newEdges :=
      (edges.foldl (mergeEdgeStep fresh mergeNodeIds newNodeId newPortId) ([], [], 2)).1
    let nextNodes := nodes.filter (fun n => !mergeNodeIds.contains n.id) ++ [newNode]
    let nextGroups :=
      (groups.map (fun g =>
        { g with nodeIds := g.nodeIds.filter (fun nid => !mergeNodeIds.contains nid) })).filter
        (fun g => g.nodeIds.length > 0)
    some ⟨nextNodes, newEdges, nextGroups, newNode⟩

/-! ## Concrete fixtures used by the example-based claims and witnesses -/

/-- A text node with the given id, position, ports and content, all other
fields at their common defaults. -/
def mkNode (id : String) (x y : Int) (ports : List String) (content : String := "") : NodeData :=
  { id := id, type := "text", source := "user", content := content,
    position := { x := x, y := y }, width := 300, height := 150,
    isGenerating := false, ports := ports, model := none,
    isInactive := false, collapsed := false, imageId := none, imageMimeType := none }

/-- An edge with the given id, endpoints and handles, no color. -/
def mkEdge (id s t : String) (sh th : Option String) : EdgeData :=
  { id := id, source := s, target := t, sourceHandle := sh, targetHandle := th, color := none }

/-- A deterministic stand-in for the `uuidv4()` fresh-name supply. -/
def freshId (k : Nat) : String := "uuid" ++ toString k

/-- Diamond-graph fixture for the traversal claim: A at x=0, B at x=400,
C at x=600, D at x=1000, each with a single port. -/
def diamondNodes : List NodeData :=
  [mkNode "A" 0 0 ["pa"], mkNode "B" 400 0 ["pb"],
   mkNode "C" 600 300 ["pc"], mkNode "D" 1000 0 ["pd"]]

/-- Diamond-graph edges A→B, A→C, B→D, C→D, each between the endpoint
nodes' single ports. -/
def diamondEdges : List EdgeData :=
  [mkEdge "e1" "A" "B" (some "pa") (some "pb"),
   mkEdge "e2" "A" "C" (some "pa") (some "pc"),
   mkEdge "e3" "B" "D" (some "pb") (some "pd"),
   mkEdge "e4" "C" "D" (some "pc") (some "pd")]

/-- Strict ascending order of a list of integers (adjacent comparisons). -/
def strictlyIncreasing : List Int → Bool
  | [] => true
  | [_] => true
  | a :: b :: rest => a < b && strictlyIncreasing (b :: rest)

/-- Fixture for the merge claim: upstream node U feeding both N1 ("Hello")
and N2 ("World") from the same port, and N1 feeding downstream node V. -/
def mergeFixtureNodes : List NodeData :=
  [mkNode "U" 0 0 ["pu"], mkNode "N1" 100 50 ["q1"] "Hello",
   mkNode "N2" 100 300 ["q2"] "World", mkNode "V" 600 0 ["pv"]]

/-- Edges of the merge fixture: U→N1 and U→N2 (same remote endpoint U:pu),
and N1→V. -/
def mergeFixtureEdges : List EdgeData :=
  [mkEdge "e1" "U" "N1" (some "pu") (some "q1"),
   mkEdge "e2" "U" "N2" (some "pu") (some "q2"),
   mkEdge "e3" "N1" "V" (some "q1") (some "pv")]

/-- Fixture for the layout claim: a linear chain A→B→C (ids and edges only;
pre-layout positions are scrambled so the result depends on the leveling). -/
def chainNodes : List NodeData :=
  [mkNode "A" 50 30 ["pa"], mkNode "B" 20 10 ["pb"], mkNode "C" 90 20 ["pc"]]

/-- Chain edges A→B and B→C. -/
def chainEdges : List EdgeData :=
  [mkEdge "e1" "A" "B" (some "pa") (some "pb"),
   mkEdge "e2" "B" "C" (some "pb") (some "pc")]

/-- Fixture for the port-reconciliation claim: a node with ports
[p1, p2, p3] of which only p1 is referenced by an edge. -/
def portFixtureNode : NodeData := mkNode "N" 0 0 ["p1", "p2", "p3"]

/-- The single edge of the port fixture, targeting port p1 of N. -/
def portFixtureEdges : List EdgeData := [mkEdge "e1" "U" "N" (some "u1") (some "p1")]

/-- The (source, sourceHandle, target, targetHandle) connection tuple used
by the duplicate-bridge check at graph.ts lines 236–246. -/
def connKey (e : EdgeData) : String × Option String × String × Option String :=
  (e.source, e.sourceHandle, e.target, e.targetHandle)

/-- Fixture for the deletion claims: chain A→B→C through single ports plus
a direct edge A→C that coincides with the bridge deleting B would create. -/
def delFixtureNodes : List NodeData :=
  [mkNode "A" 0 0 ["pa"], mkNode "B" 500 0 ["pb"], mkNode "C" 1000 0 ["pc"]]

/-- Edges of the deletion fixture: A→B, B→C and the direct A→C. -/
def delFixtureEdges : List EdgeData :=
  [mkEdge "e1" "A" "B" (some "pa") (some "pb"),
   mkEdge "e2" "B" "C" (some "pb") (some "pc"),
   mkEdge "e3" "A" "C" (some "pa") (some "pc")]

/-- A bridge candidate is well-connected when its source/sourceHandle come
from an incoming edge of the partition and its target/targetHandle from an
outgoing one (used as the fold invariant over the bridging loops). -/
def bridgeEndpointsOk (edges : List EdgeData) (delIds : List String) (e : EdgeData) : Prop :=
  (∃ inE ∈ incomingEdgesOf edges delIds, e.source = inE.source) ∧
  (∃ outE ∈ outgoingEdgesOf edges delIds, e.target = outE.target)

/-! ## Claim theorems -/


/-- C4: on the diamond graph (A→B, A→C, B→D, C→D), `getExecutionSequence`
started at D succeeds (the stack loop terminates well within the given
fuel), its sequence is all four nodes in ascending x-position order, and
`ancestorEdgeIds` contains exactly the 4 edge ids. -/
theorem claim_C4_diamond_traversal :
    ∃ r, getExecutionSequence 100 "D" diamondNodes diamondEdges = some r ∧
      r.sequence.map (fun n => n.id) = ["A", "B", "C", "D"] ∧
      strictlyIncreasing (r.sequence.map (fun n => n.position.x)) = true ∧
      (∀ eid ∈ r.ancestorEdgeIds, eid ∈ ["e1", "e2", "e3", "e4"]) ∧
      (∀ eid ∈ ["e1", "e2", "e3", "e4"], eid ∈ r.ancestorEdgeIds) :=
  ⟨_, rfl, by decide, by decide, by decide, by decide⟩


/-- C5: merging the "Hello" and "World" nodes yields a node whose content is
`"Hello\n\nWorld"` with exactly one fresh port; the two incoming edges from
the same remote endpoint U:pu collapse to a single edge into the new node's
port, and N1's outgoing edge is rewritten to source from that port. -/
theorem claim_C5_merge_hello_world :
    ∃ r, calculateMergeEffects freshId mergeFixtureNodes mergeFixtureEdges [] ["N1", "N2"] 300 =
        some r ∧
      r.newNode.content = "Hello\n\nWorld" ∧
      r.newNode.id = freshId 0 ∧
      r.newNode.ports = [freshId 1] ∧
      r.edges.map (fun e => (e.source, e.sourceHandle, e.target, e.targetHandle)) =
        [("U", some "pu", freshId 0, some (freshId 1)),
         (freshId 0, some (freshId 1), "V", some "pv")] ∧
      r.nodes.map (fun n => n.id) = ["U", "V", freshId 0] :=
  ⟨_, rfl, by decide, by decide, by decide, by decide, by decide⟩


/-- C6: on the linear chain A→B→C, the longest-path leveling of
`performLayout` assigns levels 0, 1, 2 to A, B, C, and the laid-out
x-coordinates of A, B, C strictly increase left to right. -/
theorem claim_C6_chain_layout :
    assignLevels chainNodes chainEdges "A" = 0 ∧
    assignLevels chainNodes chainEdges "B" = 1 ∧
    assignLevels chainNodes chainEdges "C" = 2 ∧
    (performLayout chainNodes chainEdges 100 100).map (fun n => n.id) = ["A", "B", "C"] ∧
    strictlyIncreasing
      ((performLayout chainNodes chainEdges 100 100).map (fun n => n.position.x)) = true :=
  ⟨by decide, by decide, by decide, by decide, by decide⟩

/-- The cleanup loop is a fixed point on its own output. -/
theorem dropTrailingInactive_idem (a : String → Bool) (l : List String) :
    dropTrailingInactive a (dropTrailingInactive a l) = dropTrailingInactive a l := by
  induction l with
  | nil => rfl
  | cons p ps ih =>
    cases ps with
    | nil => rfl
    | cons q rest =>
      by_cases hp : a p
      · simp [dropTrailingInactive, hp]
      · by_cases hq : a q
        · simp [dropTrailingInactive, hp, hq]
        · simpa [dropTrailingInactive, hp, hq] using ih

/-- The active-port set only depends on the node's id, not its port list. -/
theorem isActivePort_ports_update (node : NodeData) (currentEdges : List EdgeData)
    (x : List String) :
    isActivePort { node with ports := x } currentEdges = isActivePort node currentEdges :=
  rfl

/-- C7: `getCleanedPorts` is idempotent — running it again on a node whose
ports are the first run's result, against the same edge set, returns that
result unchanged. -/
theorem claim_C7_cleaned_ports_idempotent (node : NodeData) (currentEdges : List EdgeData) :
    getCleanedPorts { node with ports := getCleanedPorts node currentEdges } currentEdges =
      getCleanedPorts node currentEdges := by
  simp only [getCleanedPorts, isActivePort_ports_update, List.reverse_reverse]
  rw [dropTrailingInactive_idem]

/-- C8: `performLayout` preserves every field of every input node except
`position`: the output nodes correspond one-to-one, in order, to the input
nodes, each equal to its input node up to the replaced position. -/
theorem claim_C8_layout_frame (targetNodes : List NodeData) (targetEdges : List EdgeData)
    (originX originY : Int) :
    List.Forall₂ (fun outN inN => outN = { inN with position := outN.position })
      (performLayout targetNodes targetEdges originX originY) targetNodes := by
  unfold performLayout
  split
  · next h =>
    rw [List.isEmpty_iff.mp h]
    exact List.Forall₂.nil
  · rw [List.forall₂_map_left_iff, List.forall₂_same]
    intro x _
    rfl

/-- C10: deletion with an empty deletion set keeps the edge list unchanged
and every node's id and position, but reconciles every node's port list
against the edges and drops groups whose member list is empty. -/
theorem claim_C10_empty_deletion (fresh : Nat → String) (nodes : List NodeData)
    (edges : List EdgeData) (groups : List GroupData) :
    calculateDeletionEffects fresh nodes edges groups [] =
      ⟨nodes.map (fun n => { n with ports := getCleanedPorts n edges }),
       edges,
       groups.filter (fun g => g.nodeIds.length > 0)⟩ := by
  have hrem : remainingEdgesOf edges [] = edges := by
    simp [remainingEdgesOf]
  have hbr : bridgedEdgesOf fresh nodes edges [] = [] := rfl
  have hcopy :
      (fun (n : NodeData) => { n with position := { x := n.position.x, y := n.position.y } }) =
        fun n => n := by
    funext n
    rfl
  have hshift : shiftedNodesOf fresh nodes edges [] = nodes := by
    simp [shiftedNodesOf, hbr, hcopy]
  have hgroups :
      (fun (g : GroupData) =>
          { g with nodeIds := g.nodeIds.filter (fun nid => !([] : List String).contains nid) }) =
        fun g => g := by
    funext g
    simp
  simp [calculateDeletionEffects, hrem, hbr, hshift, hgroups]

/-- C9: `calculateMergeEffects` returns `none` exactly when no requested
merge id resolves to an existing node; as soon as one id resolves it
returns a full result record whose node list contains the new merged node. -/
theorem claim_C9_merge_none (fresh : Nat → String) (nodes : List NodeData)
    (edges : List EdgeData) (groups : List GroupData) (mergeNodeIds : List String)
    (w : Int) :
    (calculateMergeEffects fresh nodes edges groups mergeNodeIds w = none ↔
      ∀ id ∈ mergeNodeIds, ∀ n ∈ nodes, n.id ≠ id) ∧
    ((∃ id ∈ mergeNodeIds, ∃ n ∈ nodes, n.id = id) →
      ∃ r, calculateMergeEffects fresh nodes edges groups mergeNodeIds w = some r ∧
        r.newNode ∈ r.nodes) := by
  have hresolve :
      (mergeNodeIds.filterMap (fun id => nodes.find? (fun n => n.id == id))).isEmpty = true ↔
        ∀ id ∈ mergeNodeIds, ∀ n ∈ nodes, n.id ≠ id := by
    rw [List.isEmpty_iff, List.filterMap_eq_nil_iff]
    constructor
    · intro h id hid n hn
      have := List.find?_eq_none.mp (h id hid) n hn
      simpa using this
    · intro h id hid
      exact List.find?_eq_none.mpr (fun n hn => by simpa using h id hid n hn)
  constructor
  · rw [calculateMergeEffects]
    split
    · next hemp => simpa using hresolve.mp hemp
    · next hemp =>
      simp only [reduceCtorEq, false_iff]
      intro hall
      exact hemp (hresolve.mpr hall)
  · intro hex
    rw [calculateMergeEffects]
    split
    · next hemp =>
      obtain ⟨id, hid, n, hn, hnid⟩ := hex
      have := hresolve.mp hemp id hid n hn
      exact absurd hnid this
    · exact ⟨_, rfl, by simp⟩

/-- Witness for C9 at the merge fixture: "N1" resolves, so the merge
returns a full record containing the new node. -/
theorem claim_C9_witness :
    (∃ id ∈ ["N1", "N2"], ∃ n ∈ mergeFixtureNodes, n.id = id) ∧
    (∃ r, calculateMergeEffects freshId mergeFixtureNodes mergeFixtureEdges [] ["N1", "N2"] 300 =
        some r ∧ r.newNode ∈ r.nodes) := by
  have hex : ∃ id ∈ ["N1", "N2"], ∃ n ∈ mergeFixtureNodes, n.id = id :=
    ⟨"N1", by simp, mkNode "N1" 100 50 ["q1"] "Hello", by simp [mergeFixtureNodes], rfl⟩
  exact ⟨hex,
    (claim_C9_merge_none freshId mergeFixtureNodes mergeFixtureEdges [] ["N1", "N2"] 300).2 hex⟩

/-- The cleanup loop only ever pops from the end: its result is a suffix of
the (reversed) input. -/
theorem dropTrailingInactive_suffix (a : String → Bool) (l : List String) :
    dropTrailingInactive a l <:+ l := by
  induction l with
  | nil => exact List.suffix_refl _
  | cons p ps ih =>
    cases ps with
    | nil => exact List.suffix_refl _
    | cons q rest =>
      by_cases hp : a p
      · rw [show dropTrailingInactive a (p :: q :: rest) = p :: q :: rest from by
          simp [dropTrailingInactive, hp]]
      · by_cases hq : a q
        · rw [show dropTrailingInactive a (p :: q :: rest) = p :: q :: rest from by
            simp [dropTrailingInactive, hp, hq]]
        · rw [show dropTrailingInactive a (p :: q :: rest) = dropTrailingInactive a (q :: rest)
            from by simp [dropTrailingInactive, hp, hq]]
          exact ih.trans (List.suffix_cons p (q :: rest))

/-- The cleanup loop never drops an active element. -/
theorem dropTrailingInactive_active_mem (a : String → Bool) (l : List String) (x : String)
    (hx : x ∈ l) (hax : a x = true) : x ∈ dropTrailingInactive a l := by
  induction l with
  | nil => simp at hx
  | cons p ps ih =>
    cases ps with
    | nil => simpa [dropTrailingInactive] using hx
    | cons q rest =>
      by_cases hp : a p
      · simpa [dropTrailingInactive, hp] using hx
      · by_cases hq : a q
        · simpa [dropTrailingInactive, hp, hq] using hx
        · rw [show dropTrailingInactive a (p :: q :: rest) = dropTrailingInactive a (q :: rest)
            from by simp [dropTrailingInactive, hp, hq]]
          rcases List.mem_cons.mp hx with hxp | hxr
          · subst hxp; exact absurd hax hp
          · exact ih hxr

/-- The cleanup loop never empties a non-empty list. -/
theorem dropTrailingInactive_ne_nil (a : String → Bool) (l : List String) (h : l ≠ []) :
    dropTrailingInactive a l ≠ [] := by
  induction l with
  | nil => exact absurd rfl h
  | cons p ps ih =>
    cases ps with
    | nil => simp [dropTrailingInactive]
    | cons q rest =>
      by_cases hp : a p
      · simp [dropTrailingInactive, hp]
      · by_cases hq : a q
        · simp [dropTrailingInactive, hp, hq]
        · rw [show dropTrailingInactive a (p :: q :: rest) = dropTrailingInactive a (q :: rest)
            from by simp [dropTrailingInactive, hp, hq]]
          exact ih (by simp)

/-- When the cleanup loop dropped anything, the surviving head (the last
surviving port) is inactive, and any element right after it is active: the
trailing run collapsed to exactly one spare. -/
theorem dropTrailingInactive_spare (a : String → Bool) (l : List String)
    (hne : dropTrailingInactive a l ≠ l) :
    ∃ p rest, dropTrailingInactive a l = p :: rest ∧ a p = false ∧
      ∀ q rest', rest = q :: rest' → a q = true := by
  induction l with
  | nil => exact absurd rfl hne
  | cons p ps ih =>
    cases ps with
    | nil => exact absurd rfl hne
    | cons q rest =>
      by_cases hp : a p
      · exact absurd (by simp [dropTrailingInactive, hp]) hne
      · by_cases hq : a q
        · exact absurd (by simp [dropTrailingInactive, hp, hq]) hne
        · rw [show dropTrailingInactive a (p :: q :: rest) = dropTrailingInactive a (q :: rest)
            from by simp [dropTrailingInactive, hp, hq]] at hne ⊢
          by_cases h2 : dropTrailingInactive a (q :: rest) = q :: rest
          · refine ⟨q, rest, h2, by simpa using hq, ?_⟩
            intro r rest' hr
            subst hr
            by_contra har
            have har' : a r = false := by simpa using har
            have h3 : dropTrailingInactive a (q :: r :: rest') =
                dropTrailingInactive a (r :: rest') := by
              simp [dropTrailingInactive, hq, har']
            have hlen := (dropTrailingInactive_suffix a (r :: rest')).length_le
            rw [h3] at h2
            have := congrArg List.length h2
            simp at this hlen
            omega
          · exact ih h2

/-- When the (reversed) list ends in two inactive elements the cleanup loop
drops at least one of them. -/
theorem dropTrailingInactive_drops (a : String → Bool) (p q : String) (rest : List String)
    (hp : a p = false) (hq : a q = false) :
    (dropTrailingInactive a (p :: q :: rest)).length < (p :: q :: rest).length := by
  rw [show dropTrailingInactive a (p :: q :: rest) = dropTrailingInactive a (q :: rest)
    from by simp [dropTrailingInactive, hp, hq]]
  have h := (dropTrailingInactive_suffix a (q :: rest)).length_le
  simp at h ⊢
  omega

/-- C3: `getCleanedPorts` returns a prefix of the node's port list in which
every edge-referenced (active) port is retained, a non-empty list stays
non-empty, and whenever ports were dropped the result ends in exactly one
inactive spare port (its predecessor, if any, is active); moreover if the
input's last two ports are both inactive, something is in fact dropped. -/
theorem claim_C3_port_reconciliation (node : NodeData) (currentEdges : List EdgeData) :
    getCleanedPorts node currentEdges <+: node.ports ∧
    (∀ p ∈ node.ports, isActivePort node currentEdges p = true →
      p ∈ getCleanedPorts node currentEdges) ∧
    (node.ports ≠ [] → getCleanedPorts node currentEdges ≠ []) ∧
    (getCleanedPorts node currentEdges ≠ node.ports →
      ∃ spare, (getCleanedPorts node currentEdges).getLast? = some spare ∧
        isActivePort node currentEdges spare = false) ∧
    (getCleanedPorts node currentEdges ≠ node.ports →
      2 ≤ (getCleanedPorts node currentEdges).length →
      ∃ b, (getCleanedPorts node currentEdges).dropLast.getLast? = some b ∧
        isActivePort node currentEdges b = true) ∧
    (∀ u v, node.ports.getLast? = some u → node.ports.dropLast.getLast? = some v →
      isActivePort node currentEdges u = false → isActivePort node currentEdges v = false →
      (getCleanedPorts node currentEdges).length < node.ports.length) := by
  refine ⟨?_, ?_, ?_, ?_, ?_, ?_⟩
  · have h := (dropTrailingInactive_suffix (isActivePort node currentEdges)
      node.ports.reverse).reverse
    rwa [List.reverse_reverse] at h
  · intro p hp hap
    exact List.mem_reverse.mpr
      (dropTrailingInactive_active_mem _ _ _ (List.mem_reverse.mpr hp) hap)
  · intro h
    simp only [getCleanedPorts, ne_eq, List.reverse_eq_nil_iff]
    exact dropTrailingInactive_ne_nil _ _ (by simpa using h)
  · intro hne
    have hd : dropTrailingInactive (isActivePort node currentEdges) node.ports.reverse ≠
        node.ports.reverse := by
      intro h
      apply hne
      simp only [getCleanedPorts, h, List.reverse_reverse]
    obtain ⟨p, rest, heq, hpf, -⟩ := dropTrailingInactive_spare _ _ hd
    refine ⟨p, ?_, hpf⟩
    simp only [getCleanedPorts, heq, List.getLast?_reverse]
    rfl
  · intro hne hlen
    have hd : dropTrailingInactive (isActivePort node currentEdges) node.ports.reverse ≠
        node.ports.reverse := by
      intro h
      apply hne
      simp only [getCleanedPorts, h, List.reverse_reverse]
    obtain ⟨p, rest, heq, -, hrun⟩ := dropTrailingInactive_spare _ _ hd
    have hlen' : 2 ≤ (p :: rest).length := by
      have : (getCleanedPorts node currentEdges).length = (p :: rest).length := by
        simp only [getCleanedPorts, heq, List.length_reverse]
      omega
    obtain ⟨q, rest', rfl⟩ : ∃ q rest', rest = q :: rest' := by
      cases rest with
      | nil => simp at hlen'
      | cons q rest' => exact ⟨q, rest', rfl⟩
    refine ⟨q, ?_, hrun q rest' rfl⟩
    simp [getCleanedPorts, heq, List.reverse_cons, List.dropLast_concat,
      List.getLast?_concat]
  · intro u v hu hv hau hav
    cases hrev : node.ports.reverse with
    | nil =>
      rw [← List.head?_reverse, hrev] at hu
      simp at hu
    | cons u' t =>
      cases t with
      | nil =>
        have hports : node.ports = [u'] := by
          have := congrArg List.reverse hrev
          simpa using this
        rw [hports] at hv
        simp at hv
      | cons v' t' =>
        have hports : node.ports = (v' :: t').reverse ++ [u'] := by
          have := congrArg List.reverse hrev
          simpa using this
        have hu' : u' = u := by
          rw [← List.head?_reverse, hrev] at hu
          simpa using hu
        have hv' : v' = v := by
          rw [hports, List.dropLast_concat, List.getLast?_reverse] at hv
          simpa using hv
        have hau' : isActivePort node currentEdges u' = false := by rw [hu']; exact hau
        have hav' : isActivePort node currentEdges v' = false := by rw [hv']; exact hav
        have hdrop := dropTrailingInactive_drops (isActivePort node currentEdges) u' v' t' hau' hav'
        have hlen : node.ports.length = (u' :: v' :: t').length := by
          rw [← List.length_reverse, hrev]
        simp only [getCleanedPorts, List.length_reverse, hrev]
        rw [hlen]
        exact hdrop

/-- Witness for C3 at the spec's example: ports [p1(connected),
p2(unconnected), p3(unconnected)] reconcile to [p1, p2], and each
hypothesis-bearing part of the claim is discharged at this instance. -/
theorem claim_C3_witness :
    getCleanedPorts portFixtureNode portFixtureEdges = ["p1", "p2"] ∧
    "p1" ∈ getCleanedPorts portFixtureNode portFixtureEdges ∧
    getCleanedPorts portFixtureNode portFixtureEdges ≠ [] ∧
    (∃ spare, (getCleanedPorts portFixtureNode portFixtureEdges).getLast? = some spare ∧
      isActivePort portFixtureNode portFixtureEdges spare = false) ∧
    (∃ b, (getCleanedPorts portFixtureNode portFixtureEdges).dropLast.getLast? = some b ∧
      isActivePort portFixtureNode portFixtureEdges b = true) ∧
    (getCleanedPorts portFixtureNode portFixtureEdges).length < portFixtureNode.ports.length := by
  have h := claim_C3_port_reconciliation portFixtureNode portFixtureEdges
  exact ⟨by decide,
    h.2.1 "p1" (by decide) (by decide),
    h.2.2.1 (by decide),
    h.2.2.2.1 (by decide),
    h.2.2.2.2.1 (by decide) (by decide),
    h.2.2.2.2.2 "p3" "p2" (by decide) (by decide) (by decide) (by decide)⟩

/-- Invariant principle for `List.foldl`. -/
theorem foldl_inv {α β : Type _} (P : β → Prop) (f : β → α → β) (l : List α) (init : β)
    (h0 : P init) (hstep : ∀ b, P b → ∀ a, a ∈ l → P (f b a)) : P (l.foldl f init) := by
  induction l generalizing init with
  | nil => simpa using h0
  | cons x xs ih =>
    simp only [List.foldl_cons]
    exact ih (f init x) (hstep init h0 x (by simp))
      (fun b hb a ha => hstep b hb a (by simp [ha]))

/-- `updateFirst` does not change the image of the list under any map the
update function is invisible to. -/
theorem updateFirst_map {α β : Type _} (p : α → Bool) (f : α → α) (g : α → β)
    (hf : ∀ x, g (f x) = g x) (l : List α) :
    (updateFirst p f l).map g = l.map g := by
  induction l with
  | nil => rfl
  | cons x xs ih =>
    unfold updateFirst
    split
    · simp [hf]
    · simp [ih]

/-- Subtree shifting only moves positions: the id sequence of the node
array is unchanged. -/
theorem shiftSubtreeLeft_map_id (finalEdges : List EdgeData) (deltaX : Int) :
    ∀ (fuel : Nat) (rootId : String) (st : ShiftState),
      ((shiftSubtreeLeft finalEdges deltaX fuel rootId st).nodes).map (fun n => n.id) =
        st.nodes.map (fun n => n.id) := by
  intro fuel
  induction fuel with
  | zero => intro rootId st; rfl
  | succ n ih =>
    intro rootId st
    unfold shiftSubtreeLeft
    split
    · rfl
    · dsimp only
      split
      · rfl
      · refine foldl_inv
          (fun (s : ShiftState) =>
            s.nodes.map (fun n => n.id) = st.nodes.map (fun n => n.id)) _ _ _ ?_ ?_
        · exact updateFirst_map (fun n => n.id == rootId)
            (fun n => { n with position := { n.position with x := n.position.x + deltaX } })
            (fun n => n.id) (fun x => rfl) st.nodes
        · intro s hs c hc
          rw [ih c s]
          exact hs

/-- The deletion pipeline's node array (before port reconciliation) has
exactly the ids of the surviving input nodes, in order. -/
theorem shiftedNodesOf_map_id (fresh : Nat → String) (nodes : List NodeData)
    (edges : List EdgeData) (delIds : List String) :
    (shiftedNodesOf fresh nodes edges delIds).map (fun n => n.id) =
      (nodes.filter (fun n => !delIds.contains n.id)).map (fun n => n.id) := by
  unfold shiftedNodesOf
  dsimp only
  refine foldl_inv
    (fun (st : ShiftState) => st.nodes.map (fun n => n.id) =
      (nodes.filter (fun n => !delIds.contains n.id)).map (fun n => n.id)) _ _ _ ?_ ?_
  · simp only [List.map_map]
    rfl
  · intro st hst e he
    split
    · split
      · rw [shiftSubtreeLeft_map_id]
        exact hst
      · exact hst
    · exact hst

/-- The ids of `calculateDeletionEffects`' node list are exactly the ids of
the input nodes that were not deleted, in order. -/
theorem calculateDeletionEffects_map_id (fresh : Nat → String) (nodes : List NodeData)
    (edges : List EdgeData) (groups : List GroupData) (delIds : List String) :
    ((calculateDeletionEffects fresh nodes edges groups delIds).nodes).map (fun n => n.id) =
      (nodes.filter (fun n => !delIds.contains n.id)).map (fun n => n.id) := by
  have h : (calculateDeletionEffects fresh nodes edges groups delIds).nodes =
      (shiftedNodesOf fresh nodes edges delIds).map
        (fun node => { node with
          ports := getCleanedPorts node
            (remainingEdgesOf edges delIds ++ bridgedEdgesOf fresh nodes edges delIds) }) := rfl
  rw [h, List.map_map]
  exact shiftedNodesOf_map_id fresh nodes edges delIds

/-- Every bridged edge takes its source (and source handle) from some
incoming edge and its target (and target handle) from some outgoing edge of
the partition. -/
theorem bridgedEdgesOf_endpoints (fresh : Nat → String) (nodes : List NodeData)
    (edges : List EdgeData) (delIds : List String) :
    ∀ e ∈ bridgedEdgesOf fresh nodes edges delIds,
      (∃ inE ∈ incomingEdgesOf edges delIds, e.source = inE.source) ∧
      (∃ outE ∈ outgoingEdgesOf edges delIds, e.target = outE.target) := by
  suffices h : ∀ e ∈ bridgedEdgesOf fresh nodes edges delIds, bridgeEndpointsOk edges delIds e by
    intro e he
    exact h e he
  unfold bridgedEdgesOf
  refine foldl_inv
    (fun (acc : List EdgeData × Nat) => ∀ e ∈ acc.1, bridgeEndpointsOk edges delIds e)
    _ _ _ (by simp) ?_
  intro acc hacc did hdid
  unfold bridgeDeletedNode
  split
  · exact hacc
  · refine foldl_inv
      (fun (acc : List EdgeData × Nat) => ∀ e ∈ acc.1, bridgeEndpointsOk edges delIds e)
      _ _ _ hacc ?_
    intro acc2 hacc2 portId hport
    unfold bridgePort
    dsimp only
    refine foldl_inv
      (fun (acc : List EdgeData × Nat) => ∀ e ∈ acc.1, bridgeEndpointsOk edges delIds e)
      _ _ _ hacc2 ?_
    intro acc3 hacc3 inEdge hin
    refine foldl_inv
      (fun (acc : List EdgeData × Nat) => ∀ e ∈ acc.1, bridgeEndpointsOk edges delIds e)
      _ _ _ hacc3 ?_
    intro acc4 hacc4 outEdge hout
    unfold addBridge
    split
    · exact hacc4
    · intro e he
      rcases List.mem_append.mp he with h | h
      · exact hacc4 e h
      · rw [List.mem_singleton.mp h]
        constructor
        · exact ⟨inEdge, (List.mem_filter.mp (List.mem_filter.mp hin).1).1, rfl⟩
        · exact ⟨outEdge, (List.mem_filter.mp (List.mem_filter.mp hout).1).1, rfl⟩

/-- C1: assuming every input edge references existing node ids, every edge
produced by `calculateDeletionEffects` references only surviving nodes —
neither endpoint is a deleted id, and both endpoints exist in the output
node set. -/
theorem claim_C1_deletion_no_dangling (fresh : Nat → String) (nodes : List NodeData)
    (edges : List EdgeData) (groups : List GroupData) (delIds : List String)
    (hWF : ∀ e ∈ edges,
      (∃ n ∈ nodes, n.id = e.source) ∧ (∃ n ∈ nodes, n.id = e.target)) :
    ∀ e ∈ (calculateDeletionEffects fresh nodes edges groups delIds).edges,
      delIds.contains e.source = false ∧ delIds.contains e.target = false ∧
      (∃ n ∈ (calculateDeletionEffects fresh nodes edges groups delIds).nodes,
        n.id = e.source) ∧
      (∃ n ∈ (calculateDeletionEffects fresh nodes edges groups delIds).nodes,
        n.id = e.target) := by
  have hmem : ∀ (x : String), delIds.contains x = false →
      (∃ n ∈ nodes, n.id = x) →
      ∃ n ∈ (calculateDeletionEffects fresh nodes edges groups delIds).nodes, n.id = x := by
    intro x hx ⟨n, hn, hnx⟩
    have hnf : n ∈ nodes.filter (fun n => !delIds.contains n.id) := by
      rw [List.mem_filter]
      exact ⟨hn, by rw [hnx, hx]; rfl⟩
    have : x ∈ ((calculateDeletionEffects fresh nodes edges groups delIds).nodes).map
        (fun n => n.id) := by
      rw [calculateDeletionEffects_map_id]
      exact List.mem_map.mpr ⟨n, hnf, hnx⟩
    obtain ⟨n', hn', hn'x⟩ := List.mem_map.mp this
    exact ⟨n', hn', hn'x⟩
  have hedges : (calculateDeletionEffects fresh nodes edges groups delIds).edges =
      remainingEdgesOf edges delIds ++ bridgedEdgesOf fresh nodes edges delIds := rfl
  intro e he
  rw [hedges] at he
  rcases List.mem_append.mp he with h | h
  · obtain ⟨hmemE, hpred⟩ := List.mem_filter.mp h
    have hs : delIds.contains e.source = false := by
      rcases Bool.and_eq_true .. |>.mp hpred with ⟨h1, -⟩
      simpa using h1
    have ht : delIds.contains e.target = false := by
      rcases Bool.and_eq_true .. |>.mp hpred with ⟨-, h2⟩
      simpa using h2
    exact ⟨hs, ht, hmem e.source hs (hWF e hmemE).1, hmem e.target ht (hWF e hmemE).2⟩
  · obtain ⟨⟨inE, hinE, hsrc⟩, ⟨outE, houtE, htgt⟩⟩ :=
      bridgedEdgesOf_endpoints fresh nodes edges delIds e h
    obtain ⟨hinEmem, hinPred⟩ := List.mem_filter.mp hinE
    obtain ⟨houtEmem, houtPred⟩ := List.mem_filter.mp houtE
    have hs : delIds.contains e.source = false := by
      rcases Bool.and_eq_true .. |>.mp hinPred with ⟨h1, -⟩
      rw [hsrc]
      simpa using h1
    have ht : delIds.contains e.target = false := by
      rcases Bool.and_eq_true .. |>.mp houtPred with ⟨-, h2⟩
      rw [htgt]
      simpa using h2
    refine ⟨hs, ht, hmem e.source hs ?_, hmem e.target ht ?_⟩
    · rw [hsrc]
      exact (hWF inE hinEmem).1
    · rw [htgt]
      exact (hWF outE houtEmem).2

/-- The bridged edges have pairwise distinct connection tuples, and none of
them duplicates a remaining edge's tuple: both guaranteed by the existence
check performed before each synthesis. -/
theorem bridgedEdgesOf_pairwise (fresh : Nat → String) (nodes : List NodeData)
    (edges : List EdgeData) (delIds : List String) :
    List.Pairwise (fun a b => connKey a ≠ connKey b) (bridgedEdgesOf fresh nodes edges delIds) ∧
    ∀ b ∈ bridgedEdgesOf fresh nodes edges delIds,
      ∀ r ∈ remainingEdgesOf edges delIds, connKey b ≠ connKey r := by
  unfold bridgedEdgesOf
  refine foldl_inv
    (fun (acc : List EdgeData × Nat) =>
      List.Pairwise (fun a b => connKey a ≠ connKey b) acc.1 ∧
      ∀ b ∈ acc.1, ∀ r ∈ remainingEdgesOf edges delIds, connKey b ≠ connKey r)
    _ _ _ (by simp) ?_
  intro acc hacc did hdid
  unfold bridgeDeletedNode
  split
  · exact hacc
  · refine foldl_inv
      (fun (acc : List EdgeData × Nat) =>
        List.Pairwise (fun a b => connKey a ≠ connKey b) acc.1 ∧
        ∀ b ∈ acc.1, ∀ r ∈ remainingEdgesOf edges delIds, connKey b ≠ connKey r)
      _ _ _ hacc ?_
    intro acc2 hacc2 portId hport
    unfold bridgePort
    dsimp only
    refine foldl_inv
      (fun (acc : List EdgeData × Nat) =>
        List.Pairwise (fun a b => connKey a ≠ connKey b) acc.1 ∧
        ∀ b ∈ acc.1, ∀ r ∈ remainingEdgesOf edges delIds, connKey b ≠ connKey r)
      _ _ _ hacc2 ?_
    intro acc3 hacc3 inEdge hin
    refine foldl_inv
      (fun (acc : List EdgeData × Nat) =>
        List.Pairwise (fun a b => connKey a ≠ connKey b) acc.1 ∧
        ∀ b ∈ acc.1, ∀ r ∈ remainingEdgesOf edges delIds, connKey b ≠ connKey r)
      _ _ _ hacc3 ?_
    intro acc4 hacc4 outEdge hout
    unfold addBridge
    split
    · exact hacc4
    next hex =>
      rw [Bool.not_eq_true] at hex
      unfold bridgeExists at hex
      rw [Bool.or_eq_false_iff] at hex
      obtain ⟨hb, hr⟩ := hex
      rw [List.any_eq_false] at hb hr
      constructor
      · rw [List.pairwise_append]
        refine ⟨hacc4.1, List.pairwise_singleton _ _, ?_⟩
        intro a ha b hbmem
        rw [List.mem_singleton.mp hbmem]
        intro hk
        apply hb a ha
        simp only [connKey, Prod.ext_iff] at hk
        simp [hk.1, hk.2.1, hk.2.2.1, hk.2.2.2]
      · intro b hbmem r hrmem
        rcases List.mem_append.mp hbmem with h | h
        · exact hacc4.2 b h r hrmem
        · rw [List.mem_singleton.mp h]
          intro hk
          apply hr r hrmem
          simp only [connKey, Prod.ext_iff] at hk
          simp [← hk.1, ← hk.2.1, ← hk.2.2.1, ← hk.2.2.2]

/-- C2: if the input edges have pairwise distinct
(source, sourceHandle, target, targetHandle) tuples, then so do the edges
produced by `calculateDeletionEffects` — in particular an existing direct
edge is never duplicated by an identical synthesized bridge. -/
theorem claim_C2_bridging_dedup (fresh : Nat → String) (nodes : List NodeData)
    (edges : List EdgeData) (groups : List GroupData) (delIds : List String)
    (hdup : List.Pairwise (fun a b => connKey a ≠ connKey b) edges) :
    List.Pairwise (fun a b => connKey a ≠ connKey b)
      (calculateDeletionEffects fresh nodes edges groups delIds).edges := by
  have hedges : (calculateDeletionEffects fresh nodes edges groups delIds).edges =
      remainingEdgesOf edges delIds ++ bridgedEdgesOf fresh nodes edges delIds := rfl
  have hsub : (remainingEdgesOf edges delIds).Sublist edges := List.filter_sublist edges
  have hb := bridgedEdgesOf_pairwise fresh nodes edges delIds
  rw [hedges, List.pairwise_append]
  refine ⟨List.Pairwise.sublist hsub hdup, hb.1, ?_⟩
  intro a ha b hbmem
  exact fun hk => hb.2 b hbmem a ha hk.symm

/-- Witness for C1 at the deletion fixture (delete B out of A→B→C plus the
direct A→C edge): the well-formedness hypothesis holds and every resulting
edge's endpoints survive. -/
theorem claim_C1_witness :
    (∀ e ∈ delFixtureEdges,
      (∃ n ∈ delFixtureNodes, n.id = e.source) ∧ (∃ n ∈ delFixtureNodes, n.id = e.target)) ∧
    (∀ e ∈ (calculateDeletionEffects freshId delFixtureNodes delFixtureEdges [] ["B"]).edges,
      (["B"] : List String).contains e.source = false ∧
      (["B"] : List String).contains e.target = false ∧
      (∃ n ∈ (calculateDeletionEffects freshId delFixtureNodes delFixtureEdges [] ["B"]).nodes,
        n.id = e.source) ∧
      (∃ n ∈ (calculateDeletionEffects freshId delFixtureNodes delFixtureEdges [] ["B"]).nodes,
        n.id = e.target)) :=
  ⟨by decide,
   claim_C1_deletion_no_dangling freshId delFixtureNodes delFixtureEdges [] ["B"] (by decide)⟩

/-- Witness for C2 at the deletion fixture: the input edges have pairwise
distinct connection tuples, and so does the deletion result — deleting B
does not duplicate the already-present direct A→C edge. -/
theorem claim_C2_witness :
    List.Pairwise (fun a b => connKey a ≠ connKey b) delFixtureEdges ∧
    List.Pairwise (fun a b => connKey a ≠ connKey b)
      (calculateDeletionEffects freshId delFixtureNodes delFixtureEdges [] ["B"]).edges :=
  ⟨by decide,
   claim_C2_bridging_dedup freshId delFixtureNodes delFixtureEdges [] ["B"] (by decide)⟩

end InBlock
